import Mathlib

/-!
Verification of the wasm-game-of-life repository's specification against its
code.  The repository ships two JavaScript render adapters
(`src/unnamed/part_000`, a canvas adapter, and `src/www/01.index.js`, a
`<pre>`-text adapter); the Rust simulation engine itself is not part of the
visible sources, so the engine is modelled from the specification where a
claim depends on it.  JavaScript numbers that are in fact small non-negative
integers are embedded as `Nat`; a `Uint8Array` view is a `List Nat` of bytes;
`arr[i]` on an out-of-range index yields `undefined`, which coerces to `0`
under the bitwise `&`, hence reads are embedded with `List.getD _ _ 0`.
-/

namespace GoL

/-! ## The JavaScript render adapter (from `src/unnamed/part_000`) -/

/-- Colour constant `DEAD_COLOR = "#FFFFFF"` of `src/unnamed/part_000`. -/
def DEAD_COLOR : String := "#FFFFFF"

/-- Colour constant `ALIVE_COLOR = "#000000"` of `src/unnamed/part_000`. -/
def ALIVE_COLOR : String := "#000000"

/-- `getIndex(row, column) = row * width + column` from `src/unnamed/part_000`,
with the captured `width` made an explicit first argument. -/
def getIndex (width row column : ℕ) : ℕ :=
  row * width + column

/-- `bitIsSet(n, arr)` from `src/unnamed/part_000`:
`byte = Math.floor(n / 8); mask = 1 << (n % 8); return (arr[byte] & mask) === mask`. -/
def bitIsSet (n : ℕ) (arr : List ℕ) : Bool :=
  (arr.getD (n / 8) 0) &&& (1 <<< (n % 8)) == 1 <<< (n % 8)

/-- The fill style `drawCells` assigns to a cell:
`ctx.fillStyle = bitIsSet(idx, cells) ? DEAD_COLOR : ALIVE_COLOR`
(from `src/unnamed/part_000`, the ternary exactly as written there). -/
def cellFillStyle (set : Bool) : String :=
  if set then DEAD_COLOR else ALIVE_COLOR

/-- Length of the `Uint8Array` view built in `drawCells`:
`new Uint8Array(memory.buffer, cellsPtr, width * height / 8)`.
JavaScript's `ToIndex` truncates a fractional length toward zero, so the
embedded length is natural-number division. -/
def cellsViewLen (width height : ℕ) : ℕ :=
  width * height / 8

/-- From the spec's words (comparison target, not source code): the buffer
byte length the spec claims, `ceil(width*height/8)`. -/
def specCeilBytes (width height : ℕ) : ℕ :=
  (width * height + 7) / 8

/-! ### Buffer accesses performed while drawing (for the frame-effect and
bounds claims).  Each JavaScript read or write of the cells view is recorded
as an explicit operation. -/

/-- One access to the cells buffer: a read of index `i`, or a write of
value `v` at index `i`. -/
inductive BufOp : Type where
  | read : ℕ → BufOp
  | write : ℕ → ℕ → BufOp
deriving DecidableEq

/-- Whether a buffer operation is a read. -/
def BufOp.isRead : BufOp → Bool
  | .read _ => true
  | .write _ _ => false

/-- The buffer index an operation touches. -/
def BufOp.idx : BufOp → ℕ
  | .read i => i
  | .write i _ => i

/-- The accesses `bitIsSet(n, arr)` performs on `arr`: a single read of
`arr[Math.floor(n / 8)]`. -/
def bitIsSetOps (n : ℕ) : List BufOp :=
  [BufOp.read (n / 8)]

/-- The accesses `drawCells` performs on the cells view: for each
`row < height` and `col < width` it calls `bitIsSet(getIndex(row, col), cells)`;
no other statement of `drawCells` touches the view. -/
def drawCellsOps (width height : ℕ) : List BufOp :=
  (List.range height).flatMap fun row =>
    (List.range width).flatMap fun col =>
      bitIsSetOps (getIndex width row col)

/-- Run a list of buffer operations against a buffer: writes update the
buffer (`buf.set`), reads leave it unchanged. -/
def applyOps (ops : List BufOp) (buf : List ℕ) : List ℕ :=
  ops.foldl (fun b op => match op with | .read _ => b | .write i v => b.set i v) buf

/-! ### The two render loops, as event traces (for the temporal claim).
An iteration of a loop is modelled by the sequence of universe-level events
it performs: drawing the state of some generation, or ticking a generation
into the next one. -/

/-- A universe-level event of a render loop: `draw g` draws the state of
generation `g`; `tick g` advances generation `g` to generation `g + 1`. -/
inductive Ev : Type where
  | draw : ℕ → Ev
  | tick : ℕ → Ev
deriving DecidableEq

/-- The body of one iteration of the canvas adapter's `renderLoop`
(`src/unnamed/part_000`, entered while generation `g` is current):
`universe.tick(); drawGrid(); drawCells();` — the tick comes first, then the
freshly produced generation `g + 1` is drawn. -/
def canvasIterBody (g : ℕ) : List Ev :=
  [Ev.tick g, Ev.draw (g + 1)]

/-- The full event trace of the canvas adapter after `k` loop iterations:
`drawGrid(); drawCells();` runs once before `requestAnimationFrame(renderLoop)`
(drawing generation `0`), then each iteration appends its body. -/
def canvasEvents : ℕ → List Ev
  | 0 => [Ev.draw 0]
  | k + 1 => canvasEvents k ++ canvasIterBody k

/-- The body of one iteration of the `<pre>` adapter's `renderLoop`
(`src/www/01.index.js`, entered while generation `g` is current):
`pre.textContent = universe.render(); universe.tick();` — draw first,
then tick. -/
def preIterBody (g : ℕ) : List Ev :=
  [Ev.draw g, Ev.tick g]

/-- The full event trace of the `<pre>` adapter after `k` loop iterations
(nothing is drawn before the first animation frame). -/
def preEvents : ℕ → List Ev
  | 0 => []
  | k + 1 => preEvents k ++ preIterBody k

/-- Whether an event is a draw. -/
def Ev.isDraw : Ev → Bool
  | .draw _ => true
  | .tick _ => false

/-- Decidable form of "within this iteration, all state reads/draws happen
before any call to tick": every tick occurs at a strictly later position
than every draw. -/
def drawsPrecedeTicks (l : List Ev) : Bool :=
  decide (∀ i < l.length, ∀ j < l.length,
    (l.getD i (Ev.draw 0)).isDraw = true → (l.getD j (Ev.draw 0)).isDraw = false → i < j)

/-! ## The simulation engine, modelled from the spec.
The Rust `Universe` is not among the visible sources; every definition in
this section is built from the specification's description of it
(sections 3, 4.1, 6 and 7 of the spec). -/

/-- Modelled from the spec: the `Universe` data model — fixed `width` and
`height` and a bit sequence `cells` of length `width * height` (bit `n` is
the cell at `row = n / width`, `column = n % width`, `true` = alive).  The
byte-packed form is exposed separately through `rawState`. -/
structure Universe : Type where
  width : ℕ
  height : ℕ
  cells : List Bool
deriving DecidableEq

/-- Modelled from the spec: the sane maximum dimension bounding buffer size
and ruling out overflow of `width * height`; the spec fixes no concrete
constant, so `2^16 - 1` (keeping `width * height < 2^32`) is used. -/
def maxDim : ℕ := 65535

/-- Modelled from the spec: the construction error, raised exactly when a
dimension is zero or exceeds the supported maximum. -/
inductive ConstructError : Type where
  | invalidDimension : ConstructError
deriving DecidableEq

/-- Modelled from the spec: construction with the deterministic seeded
initial pattern the spec gives as its example rule — cell `i = row*width+col`
is alive iff `i % s == 0` for the seed constant `s`. -/
def Universe.new (width height s : ℕ) : Universe :=
  ⟨width, height, (List.range (width * height)).map fun i => i % s == 0⟩

/-- Modelled from the spec: fallible construction; fails with
`InvalidDimension` if either dimension is zero or exceeds the maximum,
otherwise yields the constructed `Universe`. -/
def Universe.tryNew (width height s : ℕ) : Except ConstructError Universe :=
  if width = 0 ∨ height = 0 ∨ maxDim < width ∨ maxDim < height then
    .error .invalidDimension
  else
    .ok (Universe.new width height s)

/-- The cell of `u` at `(r, c)` as `1`/`0` (out-of-range bits read dead). -/
def cellNat (u : Universe) (r c : ℕ) : ℕ :=
  cond (u.cells.getD (r * u.width + c) false) 1 0

/-- Modelled from the spec: the eight toroidally wrapped neighbor offsets —
every `row±1, column±1, row, column` combination excluding self, with `-1`
realised as adding `dimension - 1` before reducing modulo the dimension. -/
def neighborOffsets (u : Universe) : List (ℕ × ℕ) :=
  [(u.height - 1, u.width - 1), (u.height - 1, 0), (u.height - 1, 1),
   (0, u.width - 1), (0, 1),
   (1, u.width - 1), (1, 0), (1, 1)]

/-- Modelled from the spec: the count of live neighbors of `(row, col)`
among the 8 toroidally-wrapped adjacent cells. -/
def liveNeighborCount (u : Universe) (row col : ℕ) : ℕ :=
  ((neighborOffsets u).map fun d =>
    cellNat u ((row + d.1) % u.height) ((col + d.2) % u.width)).sum

/-- Modelled from the spec: the B3/S23 transition for one cell — alive next
iff (currently alive and 2 or 3 live neighbors) or (currently dead and
exactly 3 live neighbors). -/
def lifeRule (alive : Bool) (n : ℕ) : Bool :=
  if alive then decide (n = 2 ∨ n = 3) else decide (n = 3)

/-- Modelled from the spec: `tick` — one generation step; every new cell is
computed by `lifeRule` from the pre-tick state (`u` is read, a whole new
cell list is produced, matching the spec's double-buffer discipline). -/
def Universe.tick (u : Universe) : Universe :=
  ⟨u.width, u.height,
    (List.range (u.width * u.height)).map fun i =>
      lifeRule (u.cells.getD i false) (liveNeighborCount u (i / u.width) (i % u.width))⟩

/-- `n` successive `tick` calls. -/
def ticks : ℕ → Universe → Universe
  | 0, u => u
  | n + 1, u => ticks n u.tick

/-- Modelled from the spec: `is_alive(row, column)` — decode the packed bit
at index `row*width + column`, both coordinates first reduced modulo the
respective dimension (toroidal indexing). -/
def Universe.isAlive (u : Universe) (row col : ℕ) : Bool :=
  u.cells.getD ((row % u.height) * u.width + (col % u.width)) false

/-- Value of the byte whose bits are the first eight entries of `l`
(bit `k` of the byte is `l.getD k false`, missing entries dead). -/
def byteFrom : List Bool → ℕ
  | [] => 0
  | b :: rest => cond b 1 0 + 2 * byteFrom rest

/-- Modelled from the spec: pack a bit sequence into `ceil(length/8)` bytes,
bit `n % 8` of byte `n / 8` holding bit `n`. -/
def packBits (bits : List Bool) : List ℕ :=
  (List.range ((bits.length + 7) / 8)).map fun i => byteFrom ((bits.drop (8 * i)).take 8)

/-- Modelled from the spec: `raw_state()` — the packed byte buffer exposed
to the consumer. -/
def Universe.rawState (u : Universe) : List ℕ :=
  packBits u.cells

/-! ## Bit-decoding lemmas shared by several claims -/

/-- `b &&& 2^k` is `2^k` or `0` according to bit `k` of `b`. -/
theorem and_two_pow_eq (b k : ℕ) :
    b &&& 2 ^ k = if b.testBit k then 2 ^ k else 0 := by
  apply Nat.eq_of_testBit_eq
  intro i
  rw [Nat.testBit_and, Nat.testBit_two_pow]
  by_cases hik : k = i
  · subst hik
    cases hb : b.testBit k <;> simp [hb]
  · cases hb : b.testBit k <;> simp [hik, Nat.testBit_two_pow, Ne.symm hik]

/-- The mask test of `bitIsSet` agrees with `Nat.testBit`:
`(b & (1 << k)) === (1 << k)` holds exactly when bit `k` of `b` is set. -/
theorem and_mask_beq (b k : ℕ) :
    ((b &&& (1 <<< k)) == (1 <<< k)) = b.testBit k := by
  rw [Nat.one_shiftLeft, and_two_pow_eq]
  cases hb : b.testBit k
  · simp [(Nat.two_pow_pos k).ne]
  · simp

/-- `bitIsSet n arr` is exactly bit `n % 8` of byte `n / 8` of `arr`
(out-of-range bytes reading as `0`). -/
theorem bitIsSet_eq_testBit (n : ℕ) (arr : List ℕ) :
    bitIsSet n arr = (arr.getD (n / 8) 0).testBit (n % 8) := by
  unfold bitIsSet
  exact and_mask_beq _ _

/-- Bit `k` of `byteFrom l` is the `k`-th entry of `l`. -/
theorem byteFrom_testBit (l : List Bool) (k : ℕ) :
    (byteFrom l).testBit k = l.getD k false := by
  induction l generalizing k with
  | nil => simp [byteFrom]
  | cons b rest ih =>
    cases k with
    | zero =>
      rw [byteFrom, Nat.testBit_zero]
      cases b <;> simp [Nat.add_mul_mod_self_left]
    | succ k =>
      rw [byteFrom, Nat.testBit_add_one]
      have hdiv : (cond b 1 0 + 2 * byteFrom rest) / 2 = byteFrom rest := by
        cases b <;> simp only [Bool.cond_true, Bool.cond_false] <;> omega
      rw [hdiv]
      simpa using ih k

/-- Element `i` of `packBits bits` (as an optional value). -/
theorem packBits_getElem? (bits : List Bool) (i : ℕ) (hi : i < (bits.length + 7) / 8) :
    (packBits bits)[i]? = some (byteFrom ((bits.drop (8 * i)).take 8)) := by
  unfold packBits
  rw [List.getElem?_map, List.getElem?_range hi]
  rfl

/-- Decoding bit `n` of the packed buffer recovers bit `n` of the original
sequence, for every `n` (missing bits on both sides read dead). -/
theorem packBits_decode (bits : List Bool) (n : ℕ) :
    ((packBits bits).getD (n / 8) 0).testBit (n % 8) = bits.getD n false := by
  by_cases hb : n / 8 < (bits.length + 7) / 8
  · rw [List.getD_eq_getElem?_getD, packBits_getElem? bits _ hb]
    have hmod : n % 8 < 8 := Nat.mod_lt _ (by omega)
    have htake : ((bits.drop (8 * (n / 8))).take 8)[n % 8]? = (bits.drop (8 * (n / 8)))[n % 8]? :=
      List.getElem?_take_of_lt hmod
    have hdrop : (bits.drop (8 * (n / 8)))[n % 8]? = bits[8 * (n / 8) + n % 8]? :=
      List.getElem?_drop bits _ _
    have hn : 8 * (n / 8) + n % 8 = n := by omega
    rw [Option.getD_some, byteFrom_testBit, List.getD_eq_getElem?_getD, htake, hdrop, hn,
      List.getD_eq_getElem?_getD]
  · have hlen : (packBits bits).length = (bits.length + 7) / 8 := by
      simp [packBits]
    have hout : (packBits bits)[n / 8]? = none := by
      rw [List.getElem?_eq_none_iff, hlen]
      omega
    have hnbig : bits.length ≤ n := by omega
    have hout2 : bits[n]? = none := by
      rw [List.getElem?_eq_none_iff]
      exact hnbig
    rw [List.getD_eq_getElem?_getD, hout, List.getD_eq_getElem?_getD, hout2]
    simp

/-- The adapter's `bitIsSet` applied to the packed buffer recovers the
engine's bit sequence at every index. -/
theorem bitIsSet_packBits (bits : List Bool) (n : ℕ) :
    bitIsSet n (packBits bits) = bits.getD n false := by
  rw [bitIsSet_eq_testBit, packBits_decode]

/-! ## Helper lemmas about the engine model -/

/-- `getD` over a mapped range evaluates the function at in-range indices. -/
theorem getD_map_range {α : Type _} (f : ℕ → α) (d : α) {n i : ℕ} (h : i < n) :
    ((List.range n).map f).getD i d = f i := by
  rw [List.getD_eq_getElem?_getD, List.getElem?_map, List.getElem?_range h]
  rfl

/-- A row-major cell index of an in-range cell is below the grid size. -/
theorem rowmajor_lt {w h row col : ℕ} (hr : row < h) (hc : col < w) :
    row * w + col < w * h := by
  have h1 : row * w + col < (row + 1) * w := by
    rw [Nat.add_mul, Nat.one_mul]
    omega
  have h2 : (row + 1) * w ≤ h * w := Nat.mul_le_mul_right w hr
  calc row * w + col < (row + 1) * w := h1
    _ ≤ h * w := h2
    _ = w * h := Nat.mul_comm h w

/-- Reading the post-tick cell list at an in-range cell gives `lifeRule`
applied to the pre-tick cell and its pre-tick neighbor count. -/
theorem tick_getD (u : Universe) (row col : ℕ) (hr : row < u.height) (hc : col < u.width) :
    u.tick.cells.getD (row * u.width + col) false =
      lifeRule (u.cells.getD (row * u.width + col) false) (liveNeighborCount u row col) := by
  have hw : 0 < u.width := by omega
  have hi : row * u.width + col < u.width * u.height := rowmajor_lt hr hc
  have hdiv : (row * u.width + col) / u.width = row := by
    rw [Nat.mul_comm row u.width, Nat.mul_add_div hw, Nat.div_eq_of_lt hc]
    omega
  have hmod : (row * u.width + col) % u.width = col := by
    rw [Nat.mul_comm row u.width, Nat.mul_add_mod, Nat.mod_eq_of_lt hc]
  show ((List.range (u.width * u.height)).map fun i =>
      lifeRule (u.cells.getD i false) (liveNeighborCount u (i / u.width) (i % u.width))).getD
      (row * u.width + col) false = _
  rw [getD_map_range _ _ hi, hdiv, hmod]

/-- `tick` preserves the dimensions and restores the cell-list length to
`width * height`. -/
theorem tick_shape (u : Universe) :
    u.tick.width = u.width ∧ u.tick.height = u.height ∧
      u.tick.cells.length = u.width * u.height := by
  refine ⟨rfl, rfl, ?_⟩
  show ((List.range (u.width * u.height)).map _).length = _
  simp

/-- Iterated ticking of a freshly constructed universe keeps the dimensions
and the cell-list length. -/
theorem ticks_new_shape (w h s n : ℕ) :
    (ticks n (Universe.new w h s)).width = w ∧
      (ticks n (Universe.new w h s)).height = h ∧
      (ticks n (Universe.new w h s)).cells.length = w * h := by
  have key : ∀ m u, u.width = w → u.height = h → u.cells.length = w * h →
      (ticks m u).width = w ∧ (ticks m u).height = h ∧ (ticks m u).cells.length = w * h := by
    intro m
    induction m with
    | zero => intro u hw hh hl; exact ⟨hw, hh, hl⟩
    | succ m ih =>
      intro u hw hh hl
      have hs := tick_shape u
      exact ih u.tick (hs.1.trans hw) (hs.2.1.trans hh)
        (by rw [hs.2.2, hw, hh])
  refine key n (Universe.new w h s) rfl rfl ?_
  show ((List.range (w * h)).map _).length = w * h
  simp

/-- A trace consisting only of reads leaves any buffer unchanged. -/
theorem applyOps_of_reads (ops : List BufOp) (hall : ∀ op ∈ ops, op.isRead = true)
    (buf : List ℕ) : applyOps ops buf = buf := by
  induction ops generalizing buf with
  | nil => rfl
  | cons op rest ih =>
    have hop : op.isRead = true := hall op (List.mem_cons_self op rest)
    have hrest : ∀ o ∈ rest, o.isRead = true := fun o ho => hall o (List.mem_cons_of_mem _ ho)
    cases op with
    | read i => exact ih hrest buf
    | write i v => exact absurd hop (by simp [BufOp.isRead])

/-- Length of the canvas adapter's trace: one initial draw plus two events
per iteration. -/
theorem canvasEvents_length (k : ℕ) : (canvasEvents k).length = 2 * k + 1 := by
  induction k with
  | zero => rfl
  | succ k ih => simp [canvasEvents, canvasIterBody, ih]; omega

/-- In the canvas adapter's trace, generation `g` is drawn at position `2g`. -/
theorem canvasEvents_draw (k g : ℕ) (h : g ≤ k) :
    (canvasEvents k)[2 * g]? = some (Ev.draw g) := by
  induction k with
  | zero =>
    have hg : g = 0 := Nat.le_zero.mp h
    subst hg
    rfl
  | succ k ih =>
    show (canvasEvents k ++ canvasIterBody k)[2 * g]? = _
    rcases Nat.lt_or_ge g (k + 1) with hlt | hge
    · have hgk : g ≤ k := by omega
      have hidx : 2 * g < (canvasEvents k).length := by
        rw [canvasEvents_length]; omega
      rw [List.getElem?_append_left hidx]
      exact ih hgk
    · have hgk : g = k + 1 := by omega
      subst hgk
      have hlen : (canvasEvents k).length ≤ 2 * (k + 1) := by
        rw [canvasEvents_length]; omega
      rw [List.getElem?_append_right hlen, canvasEvents_length]
      have : 2 * (k + 1) - (2 * k + 1) = 1 := by omega
      rw [this]
      rfl

/-- In the canvas adapter's trace, the tick replacing generation `g` is at
position `2g + 1`. -/
theorem canvasEvents_tick (k g : ℕ) (h : g < k) :
    (canvasEvents k)[2 * g + 1]? = some (Ev.tick g) := by
  induction k with
  | zero => omega
  | succ k ih =>
    show (canvasEvents k ++ canvasIterBody k)[2 * g + 1]? = _
    rcases Nat.lt_or_ge g k with hlt | hge
    · have hidx : 2 * g + 1 < (canvasEvents k).length := by
        rw [canvasEvents_length]; omega
      rw [List.getElem?_append_left hidx]
      exact ih hlt
    · have hgk : g = k := by omega
      subst hgk
      have hlen : (canvasEvents g).length ≤ 2 * g + 1 := by
        rw [canvasEvents_length]
      rw [List.getElem?_append_right hlen, canvasEvents_length]
      have : 2 * g + 1 - (2 * g + 1) = 0 := by omega
      rw [this]
      rfl

/-! ## The claims -/

/-- C1: `bitIsSet` does read cell `n` as bit `n % 8` of byte `n / 8`, but the
render adapter then paints a cell whose bit is set with `DEAD_COLOR`, not
`ALIVE_COLOR`: evaluated at the failing input — cell `0` of a buffer whose
byte `0` is `1`, i.e. a live cell — `bitIsSet` is `true` yet `drawCells`
assigns the dead colour, contradicting the claim (and the adapter's own
comments) that a set bit is treated as alive. -/
theorem C1_set_bit_drawn_dead :
    bitIsSet 0 [1] = true ∧
      cellFillStyle (bitIsSet 0 [1]) = DEAD_COLOR ∧
      DEAD_COLOR ≠ ALIVE_COLOR :=
  ⟨by decide, by decide, by decide⟩

/-- C2 counterexample: at the valid dimensions `width = 3`, `height = 3` the
view the consumer constructs has length `3*3/8 = 1` (JavaScript `ToIndex`
truncates), not `ceil(3*3/8) = 2`, so the claim as stated is false. -/
theorem C2_counterexample : ¬ (cellsViewLen 3 3 = specCeilBytes 3 3) := by
  decide

/-- C2 amended: whenever `width * height` is divisible by 8 (as for the
64×64 universe the adapter actually builds), the consumer's view length
`width*height/8` equals `ceil(width*height/8)`, and it equals the byte
length of the engine's packed buffer after any number of ticks. -/
theorem C2_view_len (w h s n : ℕ) (hdvd : 8 ∣ w * h) :
    cellsViewLen w h = specCeilBytes w h ∧
      (ticks n (Universe.new w h s)).rawState.length = specCeilBytes w h := by
  obtain ⟨m, hm⟩ := hdvd
  have hview : cellsViewLen w h = specCeilBytes w h := by
    unfold cellsViewLen specCeilBytes
    rw [hm]
    omega
  refine ⟨hview, ?_⟩
  have hlen : (ticks n (Universe.new w h s)).cells.length = w * h :=
    (ticks_new_shape w h s n).2.2
  show (packBits (ticks n (Universe.new w h s)).cells).length = _
  unfold packBits specCeilBytes
  rw [hlen]
  simp

/-- C2 witness: the amended statement at `width = 8`, `height = 1`,
seed `2`, after `0` ticks. -/
theorem C2_view_len_witness :
    (8 : ℕ) ∣ 8 * 1 ∧
      (cellsViewLen 8 1 = specCeilBytes 8 1 ∧
        (ticks 0 (Universe.new 8 1 2)).rawState.length = specCeilBytes 8 1) :=
  ⟨⟨1, rfl⟩, C2_view_len 8 1 2 0 ⟨1, rfl⟩⟩

/-- C3 counterexample: the canvas adapter's `renderLoop` iteration performs
`universe.tick()` first and draws afterwards — in its iteration body the
draw does not precede the tick, refuting the claim that every iteration
reads and draws before ticking; `canvasEvents 1` exhibits the body inside
the actual trace. -/
theorem C3_counterexample :
    canvasEvents 1 = [Ev.draw 0, Ev.tick 0, Ev.draw 1] ∧
      drawsPrecedeTicks (canvasIterBody 0) = false :=
  ⟨rfl, by decide⟩

/-- C3 amended: in the `<pre>` adapter (`src/www/01.index.js`) each loop
iteration does draw before it ticks, as claimed; in the canvas adapter
(`src/unnamed/part_000`) each iteration ticks first and draws after, but
because the initial state is drawn before the loop starts, every generation
`g` is still drawn at a trace position strictly before the tick that
replaces it. -/
theorem C3_loop_order (k g : ℕ) (h : g < k) :
    drawsPrecedeTicks (preIterBody g) = true ∧
      ∃ i j : ℕ, i < j ∧ (canvasEvents k)[i]? = some (Ev.draw g) ∧
        (canvasEvents k)[j]? = some (Ev.tick g) := by
  constructor
  · unfold drawsPrecedeTicks preIterBody
    rw [decide_eq_true_eq]
    intro i hi j hj hdraw htick
    simp only [List.length_cons, List.length_nil] at hi hj
    interval_cases i <;> interval_cases j <;> simp_all [Ev.isDraw]
  · exact ⟨2 * g, 2 * g + 1, by omega, canvasEvents_draw k g (by omega),
      canvasEvents_tick k g h⟩

/-- C3 witness: the amended statement at `k = 1`, `g = 0`. -/
theorem C3_loop_order_witness :
    0 < 1 ∧
      (drawsPrecedeTicks (preIterBody 0) = true ∧
        ∃ i j : ℕ, i < j ∧ (canvasEvents 1)[i]? = some (Ev.draw 0) ∧
          (canvasEvents 1)[j]? = some (Ev.tick 0)) :=
  ⟨by decide, C3_loop_order 1 0 (by decide)⟩

/-- C4: for every in-range `(row, col)`, the engine's `is_alive` agrees with
the adapter's manual decode of the raw buffer — `bitIsSet` at index
`getIndex(row, col)` — which in turn is exactly bit `n % 8` of byte `n / 8`
of the raw buffer at `n = row*width + col`. -/
theorem C4_roundtrip (u : Universe) (row col : ℕ)
    (hr : row < u.height) (hc : col < u.width) :
    u.isAlive row col = bitIsSet (getIndex u.width row col) u.rawState ∧
      bitIsSet (getIndex u.width row col) u.rawState =
        (u.rawState.getD ((row * u.width + col) / 8) 0).testBit
          ((row * u.width + col) % 8) := by
  constructor
  · unfold Universe.isAlive Universe.rawState getIndex
    rw [bitIsSet_packBits, Nat.mod_eq_of_lt hr, Nat.mod_eq_of_lt hc]
  · exact bitIsSet_eq_testBit _ _

/-- C4 witness: the round trip on the concrete universe
`⟨2, 2, [true, false, false, true]⟩` at `(row, col) = (1, 1)`. -/
theorem C4_roundtrip_witness :
    1 < (Universe.mk 2 2 [true, false, false, true]).height ∧
      1 < (Universe.mk 2 2 [true, false, false, true]).width ∧
      ((Universe.mk 2 2 [true, false, false, true]).isAlive 1 1 =
          bitIsSet (getIndex 2 1 1) (Universe.mk 2 2 [true, false, false, true]).rawState ∧
        bitIsSet (getIndex 2 1 1) (Universe.mk 2 2 [true, false, false, true]).rawState =
          (((Universe.mk 2 2 [true, false, false, true]).rawState.getD ((1 * 2 + 1) / 8) 0).testBit
            ((1 * 2 + 1) % 8))) :=
  ⟨by decide, by decide,
    C4_roundtrip (Universe.mk 2 2 [true, false, false, true]) 1 1 (by decide) (by decide)⟩

/-- C5: one `tick` sets every in-range cell — from the pre-tick state only,
`tick` being a pure function of the pre-tick universe — to alive iff (it was
alive and its toroidal live-neighbor count is 2 or 3) or (it was dead and
that count is exactly 3). -/
theorem C5_tick_rule (u : Universe) (row col : ℕ)
    (hr : row < u.height) (hc : col < u.width) :
    (u.tick.cells.getD (row * u.width + col) false = true ↔
      ((u.cells.getD (row * u.width + col) false = true ∧
          (liveNeighborCount u row col = 2 ∨ liveNeighborCount u row col = 3)) ∨
        (u.cells.getD (row * u.width + col) false = false ∧
          liveNeighborCount u row col = 3))) := by
  rw [tick_getD u row col hr hc]
  unfold lifeRule
  cases hb : u.cells.getD (row * u.width + col) false <;> simp

/-- C5 witness: the transition rule on the concrete universe
`⟨2, 2, [true, true, true, false]⟩` at `(row, col) = (1, 1)`. -/
theorem C5_tick_rule_witness :
    1 < (Universe.mk 2 2 [true, true, true, false]).height ∧
      1 < (Universe.mk 2 2 [true, true, true, false]).width ∧
      ((Universe.mk 2 2 [true, true, true, false]).tick.cells.getD (1 * 2 + 1) false = true ↔
        (((Universe.mk 2 2 [true, true, true, false]).cells.getD (1 * 2 + 1) false = true ∧
            (liveNeighborCount (Universe.mk 2 2 [true, true, true, false]) 1 1 = 2 ∨
              liveNeighborCount (Universe.mk 2 2 [true, true, true, false]) 1 1 = 3)) ∨
          ((Universe.mk 2 2 [true, true, true, false]).cells.getD (1 * 2 + 1) false = false ∧
            liveNeighborCount (Universe.mk 2 2 [true, true, true, false]) 1 1 = 3))) :=
  ⟨by decide, by decide,
    C5_tick_rule (Universe.mk 2 2 [true, true, true, false]) 1 1 (by decide) (by decide)⟩

/-- C6: under the toroidal neighborhood, `(height-1, width-1)` is one of the
eight wrapped neighbors of `(0, 0)`: if that corner cell is alive, the live
neighbor count of `(0, 0)` computed during `tick` counts it (is at least 1). -/
theorem C6_wraparound (u : Universe) (hh : 0 < u.height) (hw : 0 < u.width)
    (halive : u.cells.getD ((u.height - 1) * u.width + (u.width - 1)) false = true) :
    1 ≤ liveNeighborCount u 0 0 := by
  have h1 : (u.height - 1) % u.height = u.height - 1 := Nat.mod_eq_of_lt (by omega)
  have h2 : (u.width - 1) % u.width = u.width - 1 := Nat.mod_eq_of_lt (by omega)
  simp only [liveNeighborCount, neighborOffsets, List.map_cons, List.map_nil,
    List.sum_cons, List.sum_nil, Nat.zero_add, h1, h2]
  unfold cellNat
  rw [halive]
  simp only [Bool.cond_true]
  omega

/-- C6 witness: on `⟨2, 2, [false, false, false, true]⟩` — only the corner
`(1, 1)` alive — the neighbor count of `(0, 0)` is at least 1. -/
theorem C6_wraparound_witness :
    0 < (Universe.mk 2 2 [false, false, false, true]).height ∧
      0 < (Universe.mk 2 2 [false, false, false, true]).width ∧
      (Universe.mk 2 2 [false, false, false, true]).cells.getD
        ((2 - 1) * 2 + (2 - 1)) false = true ∧
      1 ≤ liveNeighborCount (Universe.mk 2 2 [false, false, false, true]) 0 0 :=
  ⟨by decide, by decide, by decide,
    C6_wraparound (Universe.mk 2 2 [false, false, false, true]) (by decide) (by decide)
      (by decide)⟩

/-- C7: construction plus ticking is deterministic — two universes built
independently from identical dimensions and seed, ticked the same number of
times, expose bit-identical packed buffers. -/
theorem C7_deterministic (w h s k : ℕ) (u₁ u₂ : Universe)
    (h₁ : u₁ = Universe.new w h s) (h₂ : u₂ = Universe.new w h s) :
    (ticks k u₁).rawState = (ticks k u₂).rawState := by
  subst h₁
  subst h₂
  rfl

/-- C7 witness: two copies of `Universe.new 3 3 2` after 2 ticks. -/
theorem C7_deterministic_witness :
    Universe.new 3 3 2 = Universe.new 3 3 2 ∧
      (ticks 2 (Universe.new 3 3 2)).rawState = (ticks 2 (Universe.new 3 3 2)).rawState :=
  ⟨rfl, C7_deterministic 3 3 2 2 (Universe.new 3 3 2) (Universe.new 3 3 2) rfl rfl⟩

/-- C8: construction fails with `InvalidDimension` exactly when a dimension
is zero or exceeds the supported maximum — so no `Universe` is produced in
that case and no other error is ever returned — and on valid dimensions it
succeeds with the constructed instance (on which `tick` and the read
operations are total Lean functions). -/
theorem C8_invalid_dimension (w h s : ℕ) :
    (Universe.tryNew w h s = .error .invalidDimension ↔
        (w = 0 ∨ h = 0 ∨ maxDim < w ∨ maxDim < h)) ∧
      (¬(w = 0 ∨ h = 0 ∨ maxDim < w ∨ maxDim < h) →
        Universe.tryNew w h s = .ok (Universe.new w h s)) := by
  unfold Universe.tryNew
  by_cases hcond : w = 0 ∨ h = 0 ∨ maxDim < w ∨ maxDim < h
  · rw [if_pos hcond]
    exact ⟨⟨fun _ => hcond, fun _ => rfl⟩, fun hn => absurd hcond hn⟩
  · rw [if_neg hcond]
    refine ⟨⟨fun hx => Except.noConfusion hx, fun hc => absurd hc hcond⟩, fun _ => rfl⟩

/-- C8 witness: `width = 0` is rejected with `InvalidDimension`; `4 × 4`
succeeds and yields the constructed universe. -/
theorem C8_invalid_dimension_witness :
    Universe.tryNew 0 4 2 = .error .invalidDimension ∧
      Universe.tryNew 4 4 2 = .ok (Universe.new 4 4 2) :=
  ⟨(C8_invalid_dimension 0 4 2).1.mpr (Or.inl rfl),
    (C8_invalid_dimension 4 4 2).2 (by decide)⟩

/-- C9: every access `drawCells` (via `bitIsSet`) performs on the cells view
is a read, and replaying the whole access trace of a frame against any
buffer leaves the buffer byte-for-byte unchanged. -/
theorem C9_reads_only (w h : ℕ) (buf : List ℕ) :
    (∀ op ∈ drawCellsOps w h, op.isRead = true) ∧
      applyOps (drawCellsOps w h) buf = buf := by
  have hreads : ∀ op ∈ drawCellsOps w h, op.isRead = true := by
    intro op hop
    simp only [drawCellsOps, bitIsSetOps, List.mem_flatMap, List.mem_range,
      List.mem_singleton] at hop
    obtain ⟨row, _, col, _, hop⟩ := hop
    subst hop
    rfl
  exact ⟨hreads, applyOps_of_reads _ hreads buf⟩

/-- C10: when `width * height` is divisible by 8, every byte index
`floor(n/8)` of a cell index `n < width*height` is below the view length
`width*height/8`, and hence every access `drawCells` performs is in bounds
for the view it constructs. -/
theorem C10_in_bounds (w h : ℕ) (hdvd : 8 ∣ w * h) :
    (∀ n < w * h, n / 8 < cellsViewLen w h) ∧
      (∀ op ∈ drawCellsOps w h, op.idx < cellsViewLen w h) := by
  obtain ⟨m, hm⟩ := hdvd
  have hmain : ∀ n < w * h, n / 8 < cellsViewLen w h := by
    intro n hn
    unfold cellsViewLen
    rw [hm] at hn ⊢
    omega
  refine ⟨hmain, ?_⟩
  intro op hop
  simp only [drawCellsOps, bitIsSetOps, List.mem_flatMap, List.mem_range,
    List.mem_singleton] at hop
  obtain ⟨row, hrow, col, hcol, hop⟩ := hop
  subst hop
  exact hmain _ (rowmajor_lt hrow hcol)

/-- C10 witness: at `width = 8`, `height = 2`, the byte index of cell `0`
is below the view length. -/
theorem C10_in_bounds_witness :
    (8 : ℕ) ∣ 8 * 2 ∧ (0 : ℕ) / 8 < cellsViewLen 8 2 :=
  ⟨⟨2, rfl⟩, (C10_in_bounds 8 2 ⟨2, rfl⟩).1 0 (by decide)⟩

end GoL
